import Mathlib

/-!
Verification development for the videoAuto slideshow composer.

The Python sources are embedded shallowly:

* `app/models.py`   → the `…Spec` structures below;
* `app/parser.py`   → `parseNarrations`, `parse_node`, `parseGroupId`,
  `parse_group`, `parseGroups`, `parseGroupsField`;
* `app/timeline.py` → `build_sequence_nodes`;
* `app/main.py`     → `expandNode`, `expandAll`, `buildSegments`, `runJob`;
* `app/renderer.py` → the timing definitions (`segment_voice_offset`,
  `segment_duration`, `cursor`, `start`, subtitle and transition windows,
  `total_duration`).

Seconds are modelled as exact rationals (the Python code uses floats; all the
timing arithmetic is plain field arithmetic so ℚ is the intended semantics).
File-system facts (does a voice file exist, and how long is the decoded clip)
are an oracle `fs : String → Option ℚ` carried in the context `Ctx`.
-/

namespace VideoAuto

/-- Narration after parsing (`models.NarrationSpec`): stripped comment text and
an optional stripped voice reference. -/
structure NarrationSpec where
  comment : String
  voice_url : Option String
deriving Repr, DecidableEq, Inhabited

/-- A node (`models.NodeSpec`): one image plus its narrations. -/
structure NodeSpec where
  image_url : String
  narrations : List NarrationSpec
deriving Repr, DecidableEq, Inhabited

/-- A group (`models.GroupSpec`): an original node plus effect nodes sharing a
`group_id`. -/
structure GroupSpec where
  group_id : String
  original : NodeSpec
  effects : List NodeSpec
deriving Repr, DecidableEq, Inhabited

/-- A resolved segment (`models.ResolvedSegment`).  `image_url` and `voice_url`
stand for the fetched local paths: `AssetDownloader.fetch` is content-addressed
by the reference string, so keeping the reference loses nothing. -/
structure ResolvedSegment where
  group_id : String
  kind : String
  image_url : String
  comment : String
  voice_url : Option String
deriving Repr, DecidableEq, Inhabited

/-- Timeline configuration (`models.TimelineSpec`). -/
structure TimelineSpec where
  transition_sec : ℚ
  default_still_sec : ℚ
  voice_start_offset_sec : ℚ
deriving Repr, Inhabited

/-- Context of one `render_job` call: the timeline settings plus the
file-system oracle `fs` mapping a voice path to the decoded clip duration
(`none` when the file does not exist — the renderer checks
`voice_path.exists()` before opening it). -/
structure Ctx where
  tl : TimelineSpec
  fs : String → Option ℚ

/-- Constant `INTRA_GROUP_CUE_DELAY_SEC = 0.8` from `renderer.py`. -/
def INTRA_GROUP_CUE_DELAY_SEC : ℚ := 4/5

/-- Clamped transition length: `transition = max(0.0, job.timeline.transition_sec)`. -/
def transition (c : Ctx) : ℚ := max 0 c.tl.transition_sec

/-- Clamped still duration: `default_still = max(0.1, job.timeline.default_still_sec)`. -/
def default_still (c : Ctx) : ℚ := max (1/10) c.tl.default_still_sec

/-- Clamped voice offset: `voice_offset = max(0.0, job.timeline.voice_start_offset_sec)`. -/
def voice_offset (c : Ctx) : ℚ := max 0 c.tl.voice_start_offset_sec

/-- The segment at index `i` (out-of-range indices never occur in the loop;
`getD` keeps the functions total). -/
def segAt (segs : List ResolvedSegment) (i : Nat) : ResolvedSegment :=
  segs.getD i default

/-- Renderer line 100: `is_group_first = idx == 0 or seg.group_id != segments[idx - 1].group_id`. -/
def is_group_first (segs : List ResolvedSegment) (i : Nat) : Bool :=
  i == 0 || (segAt segs i).group_id != (segAt segs (i-1)).group_id

/-- Renderer lines 101–103: per-segment voice offset. -/
def segment_voice_offset (c : Ctx) (segs : List ResolvedSegment) (i : Nat) : ℚ :=
  if is_group_first segs i then voice_offset c else INTRA_GROUP_CUE_DELAY_SEC

/-- The opened voice source of segment `i`: present iff the segment carries a
voice path and the file exists (renderer line 107); the value is the decoded
duration. -/
def voiceSrc (c : Ctx) (segs : List ResolvedSegment) (i : Nat) : Option ℚ :=
  (segAt segs i).voice_url.bind c.fs

/-- Renderer lines 105–110: `voice_duration` is the decoded duration, `0.0`
when there is no voice source. -/
def voice_duration (c : Ctx) (segs : List ResolvedSegment) (i : Nat) : ℚ :=
  (voiceSrc c segs i).getD 0

/-- Renderer line 112: `segment_duration = max(default_still, voice_duration + segment_voice_offset)`. -/
def segment_duration (c : Ctx) (segs : List ResolvedSegment) (i : Nat) : ℚ :=
  max (default_still c) (voice_duration c segs i + segment_voice_offset c segs i)

/-- The cursor before processing segment `i` (renderer lines 90, 186–189):
starts at `0`, advances by the full duration after segment 0 and by
`max(0, duration - transition)` after every later segment. -/
def cursor (c : Ctx) (segs : List ResolvedSegment) : Nat → ℚ
  | 0 => 0
  | i+1 =>
    cursor c segs i +
      (if i == 0 then segment_duration c segs 0
       else max 0 (segment_duration c segs i - transition c))

/-- Renderer line 114: `start = cursor if idx == 0 else cursor - transition`
(the cursor is `0` when segment 0 is placed). -/
def start (c : Ctx) (segs : List ResolvedSegment) (i : Nat) : ℚ :=
  if i == 0 then 0 else cursor c segs i - transition c

/-- Renderer line 137: `available = max(0.0, segment_duration - segment_voice_offset)`. -/
def available (c : Ctx) (segs : List ResolvedSegment) (i : Nat) : ℚ :=
  max 0 (segment_duration c segs i - segment_voice_offset c segs i)

/-- Renderer lines 136–138: `voice_end = min(voice_src.duration, available)`
when a voice source is open, `0.0` otherwise. -/
def voice_end (c : Ctx) (segs : List ResolvedSegment) (i : Nat) : ℚ :=
  if (voiceSrc c segs i).isSome then
    min (voice_duration c segs i) (available c segs i)
  else 0

/-- A subtitle is planned iff the comment is non-empty (renderer line 140). -/
def has_subtitle (segs : List ResolvedSegment) (i : Nat) : Bool :=
  (segAt segs i).comment != ""

/-- Renderer line 145: `subtitle_start = start + segment_voice_offset if voice_src else start`. -/
def subtitle_start (c : Ctx) (segs : List ResolvedSegment) (i : Nat) : ℚ :=
  if (voiceSrc c segs i).isSome then start c segs i + segment_voice_offset c segs i
  else start c segs i

/-- Renderer line 146: `raw_subtitle_duration = voice_end if voice_src else segment_duration`. -/
def raw_subtitle_duration (c : Ctx) (segs : List ResolvedSegment) (i : Nat) : ℚ :=
  if (voiceSrc c segs i).isSome then voice_end c segs i else segment_duration c segs i

/-- Renderer lines 147–150: `subtitle_duration = min(segment_duration, max(0.05, raw - 0.05))`. -/
def subtitle_duration (c : Ctx) (segs : List ResolvedSegment) (i : Nat) : ℚ :=
  min (segment_duration c segs i) (max (1/20) (raw_subtitle_duration c segs i - 1/20))

/-- Subtitle end before the post-pass cap (renderer line 169). -/
def subtitle_end (c : Ctx) (segs : List ResolvedSegment) (i : Nat) : ℚ :=
  subtitle_start c segs i + subtitle_duration c segs i

/-- Renderer lines 191–204: the post-pass cap.  For a subtitle whose owning
segment is not last, `capped_end = min(end, next_start - 0.05)` and the new
duration is `max(0.05, capped_end - subtitle_start)`; the stored end becomes
`subtitle_start + new_duration`. -/
def capped_subtitle_end (c : Ctx) (segs : List ResolvedSegment) (i : Nat) : ℚ :=
  if i + 1 < segs.length then
    subtitle_start c segs i +
      max (1/20)
        (min (subtitle_end c segs i) (start c segs (i+1) - 1/20) - subtitle_start c segs i)
  else subtitle_end c segs i

/-- One step of the running maximum `max_visual_voice_end` (renderer lines
96, 120, 179–181): every segment contributes its visual end `start + duration`;
a segment whose voice clip is materialised (`voice_src` open and
`voice_end > 0`) also contributes `start + offset + voice_end`. -/
def vveStep (c : Ctx) (segs : List ResolvedSegment) (acc : ℚ) (i : Nat) : ℚ :=
  let acc1 := max acc (start c segs i + segment_duration c segs i)
  if (voiceSrc c segs i).isSome && decide (0 < voice_end c segs i) then
    max acc1 (start c segs i + segment_voice_offset c segs i + voice_end c segs i)
  else acc1

/-- Renderer running maximum over all segments, initial value `0.0`. -/
def max_visual_voice_end (c : Ctx) (segs : List ResolvedSegment) : ℚ :=
  (List.range segs.length).foldl (vveStep c segs) 0

/-- Renderer line 207: `max(subtitle_end_times.values(), default=0.0)`, taken
over the (post-cap) subtitle ends of the segments that own a subtitle. -/
def subtitle_max_end (c : Ctx) (segs : List ResolvedSegment) : ℚ :=
  ((((List.range segs.length).filter (fun i => has_subtitle segs i))).map
    (capped_subtitle_end c segs)).max?.getD 0

/-- Renderer line 208: `total_duration = max(max_visual_voice_end, subtitle_max_end, 0.1)`. -/
def total_duration (c : Ctx) (segs : List ResolvedSegment) : ℚ :=
  max (max (max_visual_voice_end c segs) (subtitle_max_end c segs)) (1/10)

/-- Renderer line 217: the cover layer duration
`max(1.0 / max(1, job.output.fps), 0.04)`. -/
def cover_frame_duration (fps : ℤ) : ℚ :=
  max ((1 : ℚ) / ((max 1 fps : ℤ) : ℚ)) (1/25)

/-- Transition assigned to the incoming side of segment `i` (renderer lines
122–133): nothing for segment 0 or when `transition ≤ 0`; a slide-in at a group
boundary; a cross-fade inside a group. -/
inductive TransitionKind
  | noTrans
  | cross_dissolve_in
  | slide_in_right
deriving Repr, DecidableEq

/-- Incoming transition of segment `i`. -/
def transition_in (c : Ctx) (segs : List ResolvedSegment) (i : Nat) : TransitionKind :=
  if i == 0 || !(decide (0 < transition c)) then .noTrans
  else if (segAt segs i).group_id != (segAt segs (i-1)).group_id then .slide_in_right
  else .cross_dissolve_in

/-- Whether segment `i` is retroactively given `slide_out_left` (renderer line
129): exactly when a later segment follows, `transition > 0`, and the boundary
to segment `i+1` is a group boundary. -/
def slide_out_assigned (c : Ctx) (segs : List ResolvedSegment) (i : Nat) : Bool :=
  decide (i + 1 < segs.length) && decide (0 < transition c) &&
    ((segAt segs (i+1)).group_id != (segAt segs i).group_id)

/-- Absolute time window animated by `_slide_out_left_sync` on segment `i`
(renderer lines 53–68): the clip holds until `max(0, duration - transition)`
into itself and slides for the rest. -/
def slide_out_window (c : Ctx) (segs : List ResolvedSegment) (i : Nat) : ℚ × ℚ :=
  (start c segs i + max 0 (segment_duration c segs i - transition c),
   start c segs i + segment_duration c segs i)

/-- Absolute time window animated by `_slide_in_right_sync` on segment `i`
(renderer lines 70–83): the first `transition` seconds of the clip. -/
def slide_in_window (c : Ctx) (segs : List ResolvedSegment) (i : Nat) : ℚ × ℚ :=
  (start c segs i, start c segs i + transition c)

/-! Parser and sequencing pipeline (`parser.py`, `timeline.py`, `main.py`). -/

/-- A raw narration entry as `_parse_node` sees it: the stringified `comment`
value and the `voice_url` value, which at this point is a string or null (any
other type raises earlier and is outside this model). -/
structure RawNarration where
  comment : String
  voice_url : Option String
deriving Repr, DecidableEq, Inhabited

/-- Parser lines 37–41: strip the voice value, turning the empty string into
`None` (`voice_raw.strip() or None`). -/
def cleanVoiceUrl : Option String → Option String
  | none => none
  | some s => if s.trim = "" then none else some s.trim

/-- Parser lines 32–52: keep a narration only when the stripped comment and
the cleaned voice reference are both non-empty; dropped entries raise nothing. -/
def parseNarrations (raws : List RawNarration) : List NarrationSpec :=
  raws.filterMap fun r =>
    match cleanVoiceUrl r.voice_url with
    | none => none
    | some v => if r.comment.trim = "" then none else some ⟨r.comment.trim, some v⟩

/-- Parser `_parse_node`: a node keeps its image and the filtered narrations. -/
def parse_node (image_url : String) (raws : List RawNarration) : NodeSpec :=
  ⟨image_url, parseNarrations raws⟩

/-- Parser line 59: `group_id = str(raw.get("group_id") or f"group-{index+1}")`
(`None` and the empty string are falsy and fall back to the synthetic id). -/
def parseGroupId (raw : Option String) (index : Nat) : String :=
  match raw with
  | none => "group-" ++ toString (index + 1)
  | some s => if s = "" then "group-" ++ toString (index + 1) else s

/-- A raw group as `_parse_group` sees it (nodes already parsed). -/
structure RawGroup where
  group_id : Option String
  original : NodeSpec
  effects : List NodeSpec
deriving Repr, Inhabited

/-- Parser `_parse_group` at position `index`. -/
def parse_group (raw : RawGroup) (index : Nat) : GroupSpec :=
  ⟨parseGroupId raw.group_id index, raw.original, raw.effects⟩

/-- Parser line 80: `groups = [_parse_group(item, i) for i, item in enumerate(groups_raw)]`. -/
def parseGroups (raws : List RawGroup) : List GroupSpec :=
  raws.enum.map fun p => parse_group p.2 p.1

/-- Parser lines 77–79: the `groups` field must be a present, non-empty array. -/
def parseGroupsField (raw : Option (List RawGroup)) : Except String (List RawGroup) :=
  match raw with
  | none => .error "Invalid job json: groups must be a non-empty array."
  | some [] => .error "Invalid job json: groups must be a non-empty array."
  | some gs => .ok gs

/-- The nodes one group contributes to the flat sequence (`timeline.py`
lines 10–13): the original first, then every effect, all tagged with the
group's id. -/
def nodesOfGroup (g : GroupSpec) : List (String × String × NodeSpec) :=
  (g.group_id, "original", g.original) :: g.effects.map (fun e => (g.group_id, "effect", e))

/-- `timeline.build_sequence_nodes`: groups flattened in declaration order. -/
def build_sequence_nodes (groups : List GroupSpec) : List (String × String × NodeSpec) :=
  (groups.map nodesOfGroup).flatten

/-- Main lines 41–67: one node expands into one resolved segment per
narration, or into a single silent segment (empty comment, no voice) when it
has none; every produced segment shares the node's image. -/
def expandNode (gid kind : String) (n : NodeSpec) : List ResolvedSegment :=
  match n.narrations with
  | [] => [⟨gid, kind, n.image_url, "", none⟩]
  | ns => ns.map fun nar => ⟨gid, kind, n.image_url, nar.comment, nar.voice_url⟩

/-- The expansion loop of `main.run` over a flat node sequence. -/
def expandAll (seq : List (String × String × NodeSpec)) : List ResolvedSegment :=
  (seq.map fun x => expandNode x.1 x.2.1 x.2.2).flatten

/-- Segments handed to `render_job` for a parsed job. -/
def buildSegments (groups : List GroupSpec) : List ResolvedSegment :=
  expandAll (build_sequence_nodes groups)

/-- The segments contributed by one single group. -/
def groupSegs (g : GroupSpec) : List ResolvedSegment :=
  expandAll (nodesOfGroup g)

/-- The resolved segments, each tagged with the position of the group
occurrence that produced it; `k` is the position of the first group. -/
def taggedSegs : List GroupSpec → Nat → List (Nat × ResolvedSegment)
  | [], _ => []
  | g :: gs, k => (groupSegs g).map (fun s => (k, s)) ++ taggedSegs gs (k+1)

/-- Position of the group occurrence that produced segment `i`. -/
def tagAt (groups : List GroupSpec) (i : Nat) : Nat :=
  ((taggedSegs groups 0).getD i default).1

/-- Segment `i` is the first one produced for its group: no earlier segment
comes from the same group occurrence. -/
def first_produced_for_group (groups : List GroupSpec) (i : Nat) : Prop :=
  ∀ j < i, tagAt groups j ≠ tagAt groups i

instance (groups : List GroupSpec) (i : Nat) :
    Decidable (first_produced_for_group groups i) := by
  unfold first_produced_for_group; infer_instance

/-- Adjacent groups carry distinct `group_id`s. -/
def adjacent_distinct (groups : List GroupSpec) : Prop :=
  ∀ j, j + 1 < groups.length →
    (groups.getD j default).group_id ≠ (groups.getD (j+1) default).group_id

/-- Trace of one `main.run` call over parsed groups: the asset references
fetched (in order) and the outcome.  Bgm and cover fetches happen after all
segment fetches and are outside this model. -/
structure RunTrace where
  fetches : List String
  result : Except String (List ResolvedSegment)
deriving Repr

/-- The fetches one node triggers in `main.run`: its image, then each
narration's voice. -/
def fetchesOfNode (x : String × String × NodeSpec) : List String :=
  x.2.2.image_url :: x.2.2.narrations.filterMap (·.voice_url)

/-- Main lines 30–67: abort with `"No nodes found in job config."` before any
fetch when the flattening is empty, otherwise fetch and expand every node. -/
def runJob (groups : List GroupSpec) : RunTrace :=
  let seq := build_sequence_nodes groups
  if seq.isEmpty then ⟨[], .error "No nodes found in job config."⟩
  else ⟨seq.flatMap fetchesOfNode, .ok (expandAll seq)⟩

/-! Concrete inputs used by the per-claim counterexamples and witnesses. -/

/-- C1 counterexample input: a transition longer than the still duration. -/
def cC1 : Ctx := ⟨⟨5, 2, 0⟩, fun _ => none⟩

def segsC1 : List ResolvedSegment :=
  [⟨"g", "original", "a", "", none⟩, ⟨"g", "effect", "b", "", none⟩,
   ⟨"g", "effect", "d", "", none⟩]

/-- C1 witness input: a short transition. -/
def cC1w : Ctx := ⟨⟨1/2, 2, 0⟩, fun _ => none⟩

def segsC1w : List ResolvedSegment :=
  [⟨"g", "original", "a", "", none⟩, ⟨"g", "effect", "b", "", none⟩,
   ⟨"g", "effect", "d", "", none⟩]

/-- C2 counterexample input: a voice start offset larger than the still
duration. -/
def cC2 : Ctx := ⟨⟨1/2, 2, 5⟩, fun _ => none⟩

def segsC2 : List ResolvedSegment := [⟨"g", "original", "a", "", none⟩]

/-- C2 witness input: a no-voice segment under the default configuration. -/
def cC2w : Ctx := ⟨⟨1/2, 2, 0⟩, fun _ => none⟩

def segsC2w : List ResolvedSegment := [⟨"g", "original", "a", "", none⟩]

/-- C7 witness input: one voiced segment with a comment, one silent one. -/
def cC7 : Ctx := ⟨⟨1/2, 2, 0⟩, fun u => if u = "v" then some 3 else none⟩

def segsC7 : List ResolvedSegment :=
  [⟨"g", "original", "a", "hello", some "v"⟩, ⟨"g", "effect", "b", "", none⟩]

/-- C4 counterexample input: two one-segment groups with a transition longer
than the first segment. -/
def cC4 : Ctx := ⟨⟨5, 2, 0⟩, fun _ => none⟩

def segsC4 : List ResolvedSegment :=
  [⟨"ga", "original", "a", "", none⟩, ⟨"gb", "original", "b", "", none⟩]

/-- C4 witness input: two one-segment groups with a short transition. -/
def cC4w : Ctx := ⟨⟨1/2, 2, 0⟩, fun _ => none⟩

def segsC4w : List ResolvedSegment :=
  [⟨"ga", "original", "a", "", none⟩, ⟨"gb", "original", "b", "", none⟩]

/-- C6 counterexample input: a voiced subtitle near the segment boundary where
the 0.05 duration floor wins against the cap. -/
def cC6 : Ctx := ⟨⟨6/5, 2, 4/5⟩, fun u => if u = "v" then some (1/2) else none⟩

def segsC6 : List ResolvedSegment :=
  [⟨"g", "original", "a", "hello", some "v"⟩, ⟨"g", "effect", "b", "", none⟩]

/-- C6 witness input: a voiced subtitle comfortably before the next start. -/
def cC6w : Ctx := ⟨⟨1/4, 2, 0⟩, fun u => if u = "v" then some 3 else none⟩

def segsC6w : List ResolvedSegment :=
  [⟨"g", "original", "a", "hello", some "v"⟩, ⟨"g", "effect", "b", "", none⟩]

/-- C5 counterexample input: minimal content (total = 0.1s) and `fps = 1`. -/
def cC5 : Ctx := ⟨⟨1/2, 1/10, 0⟩, fun _ => none⟩

def segsC5 : List ResolvedSegment := [⟨"g", "original", "a", "", none⟩]

/-- C5 witness input: a voiced, commented segment under a normal config. -/
def cC5w : Ctx := ⟨⟨1/2, 2, 0⟩, fun u => if u = "v" then some 3 else none⟩

def segsC5w : List ResolvedSegment :=
  [⟨"g", "original", "a", "hello", some "v"⟩, ⟨"g", "effect", "b", "", none⟩]

/-- C8 witness inputs: one droppable raw narration between two kept ones, a
narration-free node and a two-narration node. -/
def rawKeepA : RawNarration := ⟨"hi", some "v"⟩

def rawDropC8 : RawNarration := ⟨"dropped", none⟩

def rawKeepB : RawNarration := ⟨"yo", some "w"⟩

def nodeSilentC8 : NodeSpec := ⟨"img", []⟩

def nodeTwoC8 : NodeSpec := ⟨"img", [⟨"hi", some "v"⟩, ⟨"yo", some "w"⟩]⟩

/-- C10 witness input: two raw groups, both without a `group_id`. -/
def rawGroupsC10 : List RawGroup :=
  [⟨none, ⟨"a", []⟩, []⟩, ⟨some "", ⟨"b", []⟩, []⟩]

/-- C10 witness input: segments around a group boundary. -/
def cC10 : Ctx := ⟨⟨1/2, 2, 0⟩, fun _ => none⟩

def segsC10 : List ResolvedSegment :=
  [⟨"group-1", "original", "a", "", none⟩, ⟨"group-2", "original", "b", "", none⟩]

/-- C3 counterexample input: two adjacent groups that share the explicit
`group_id` value `"X"`. -/
def groupsC3x : List GroupSpec := [⟨"X", ⟨"img", []⟩, []⟩, ⟨"X", ⟨"img2", []⟩, []⟩]

def cC3x : Ctx := ⟨⟨1/2, 2, 0⟩, fun _ => none⟩

/-- C3 witness input: two adjacent groups with distinct ids. -/
def groupsC3w : List GroupSpec := [⟨"A", ⟨"img", []⟩, []⟩, ⟨"B", ⟨"img2", []⟩, []⟩]

def cC3w : Ctx := ⟨⟨1/2, 2, 0⟩, fun _ => none⟩

/-! Helper lemmas about the timing arithmetic. -/

lemma transition_nonneg (c : Ctx) : 0 ≤ transition c := le_max_left 0 _

lemma default_still_ge (c : Ctx) : (1/10 : ℚ) ≤ default_still c := le_max_left _ _

lemma voice_offset_nonneg (c : Ctx) : 0 ≤ voice_offset c := le_max_left 0 _

lemma segment_voice_offset_nonneg (c : Ctx) (segs : List ResolvedSegment) (i : Nat) :
    0 ≤ segment_voice_offset c segs i := by
  unfold segment_voice_offset
  split
  · exact voice_offset_nonneg c
  · norm_num [INTRA_GROUP_CUE_DELAY_SEC]

lemma duration_ge_still (c : Ctx) (segs : List ResolvedSegment) (i : Nat) :
    default_still c ≤ segment_duration c segs i := le_max_left _ _

lemma duration_ge_tenth (c : Ctx) (segs : List ResolvedSegment) (i : Nat) :
    (1/10 : ℚ) ≤ segment_duration c segs i :=
  le_trans (default_still_ge c) (duration_ge_still c segs i)

lemma raw_subtitle_le_duration (c : Ctx) (segs : List ResolvedSegment) (i : Nat) :
    raw_subtitle_duration c segs i ≤ segment_duration c segs i := by
  unfold raw_subtitle_duration voice_end available
  split
  · refine le_trans (le_trans (min_le_right _ _) (max_le ?_ ?_)) (le_refl _)
    · linarith [duration_ge_tenth c segs i]
    · linarith [segment_voice_offset_nonneg c segs i]
  · exact le_refl _

lemma cursor_succ (c : Ctx) (segs : List ResolvedSegment) (i : Nat) :
    cursor c segs (i+1) = cursor c segs i +
      (if i == 0 then segment_duration c segs 0
       else max 0 (segment_duration c segs i - transition c)) := rfl

lemma start_succ (c : Ctx) (segs : List ResolvedSegment) (i : Nat) :
    start c segs (i+1) = cursor c segs (i+1) - transition c := by
  simp [start]

/-- The transition-window width at the boundary between segments `i` and
`i+1`: it is exactly `transition` when `i = 0` or segment `i` is at least
`transition` long. -/
lemma overlap_eq_of (c : Ctx) (segs : List ResolvedSegment) (i : Nat)
    (h : i = 0 ∨ transition c ≤ segment_duration c segs i) :
    start c segs i + segment_duration c segs i - start c segs (i+1) = transition c := by
  rcases i with _ | j
  · rw [start_succ, cursor_succ]
    simp only [start, cursor, beq_self_eq_true, if_true]
    ring
  · have hT : transition c ≤ segment_duration c segs (j+1) := by
      rcases h with h | h
      · exact absurd h (Nat.succ_ne_zero j)
      · exact h
    have hmax : max 0 (segment_duration c segs (j+1) - transition c)
        = segment_duration c segs (j+1) - transition c :=
      max_eq_right (by linarith)
    rw [start_succ, start_succ, cursor_succ c segs (j+1)]
    rw [show ((j+1 : Nat) == 0) = false by simp]
    simp only [Bool.false_eq_true, if_false]
    rw [hmax]
    ring

/-- Generic fact: a `foldl max` is at least its initial value. -/
lemma le_foldl_max {l : List ℚ} (x : ℚ) : x ≤ l.foldl max x := by
  induction l generalizing x with
  | nil => exact le_refl x
  | cons a t ih => exact le_trans (le_max_left x a) (ih (max x a))

/-- Generic fact: a `foldl max` dominates every list member. -/
lemma mem_le_foldl_max {l : List ℚ} {a : ℚ} (h : a ∈ l) (x : ℚ) : a ≤ l.foldl max x := by
  induction l generalizing x with
  | nil => cases h
  | cons b t ih =>
    rcases List.mem_cons.mp h with rfl | hmem
    · exact le_trans (le_max_right x a) (le_foldl_max (max x a))
    · exact ih hmem (max x b)

/-- Every member of a list bounds `max?.getD d` from below. -/
lemma mem_le_max_getD {l : List ℚ} {a : ℚ} (h : a ∈ l) (d : ℚ) : a ≤ l.max?.getD d := by
  cases l with
  | nil => cases h
  | cons b t =>
    rcases List.mem_cons.mp h with rfl | hmem
    · simpa [List.max?] using le_foldl_max a
    · simpa [List.max?] using mem_le_foldl_max hmem b

lemma vveStep_le (c : Ctx) (segs : List ResolvedSegment) (acc : ℚ) (i : Nat) :
    acc ≤ vveStep c segs acc i := by
  unfold vveStep
  split
  · exact le_trans (le_max_left _ _) (le_max_left _ _)
  · exact le_max_left _ _

lemma le_foldl_vve (c : Ctx) (segs : List ResolvedSegment) (l : List Nat) (acc : ℚ) :
    acc ≤ l.foldl (vveStep c segs) acc := by
  induction l generalizing acc with
  | nil => exact le_refl acc
  | cons a t ih => exact le_trans (vveStep_le c segs acc a) (ih _)

lemma foldl_vve_bounds (c : Ctx) (segs : List ResolvedSegment) (l : List Nat)
    {i : Nat} (h : i ∈ l) : ∀ acc : ℚ,
    start c segs i + segment_duration c segs i ≤ l.foldl (vveStep c segs) acc ∧
    ((voiceSrc c segs i).isSome = true → 0 < voice_end c segs i →
      start c segs i + segment_voice_offset c segs i + voice_end c segs i
        ≤ l.foldl (vveStep c segs) acc) := by
  induction l with
  | nil => cases h
  | cons b t ih =>
    intro acc
    rcases List.mem_cons.mp h with rfl | hmem
    · constructor
      · refine le_trans ?_ (le_foldl_vve c segs t (vveStep c segs acc i))
        unfold vveStep
        split
        · exact le_trans (le_max_right _ _) (le_max_left _ _)
        · exact le_max_right _ _
      · intro hs hv
        refine le_trans ?_ (le_foldl_vve c segs t (vveStep c segs acc i))
        unfold vveStep
        rw [if_pos (by simp [hs, hv])]
        exact le_max_right _ _
    · simpa [List.foldl_cons] using ih hmem (vveStep c segs acc b)

lemma max_visual_voice_end_bounds (c : Ctx) (segs : List ResolvedSegment)
    {i : Nat} (h : i < segs.length) :
    start c segs i + segment_duration c segs i ≤ max_visual_voice_end c segs ∧
    ((voiceSrc c segs i).isSome = true → 0 < voice_end c segs i →
      start c segs i + segment_voice_offset c segs i + voice_end c segs i
        ≤ max_visual_voice_end c segs) :=
  foldl_vve_bounds c segs (List.range segs.length) (List.mem_range.mpr h) 0

/-! Claim C1. -/

/-- C1, counterexample: with `transition = 5` and three 2-second still
segments, the boundary between segments 1 and 2 overlaps by 2 seconds, not by
`transition`, so adjacent segments do not always overlap by exactly
`transition_duration`. -/
theorem c1_counterexample :
    0 < transition cC1 ∧ 1 + 1 < segsC1.length ∧
    start cC1 segsC1 1 + segment_duration cC1 segsC1 1 - start cC1 segsC1 2 = 2 ∧
    transition cC1 = 5 := by
  refine ⟨by norm_num [transition, cC1], by norm_num [segsC1], ?_, by norm_num [transition, cC1]⟩
  norm_num [start, cursor, transition, segment_duration, default_still, voice_duration,
    voiceSrc, segment_voice_offset, voice_offset, is_group_first, segAt, cC1, segsC1,
    INTRA_GROUP_CUE_DELAY_SEC]

/-- C1 (amended): the first segment starts at 0; every later segment starts at
`cursor - transition`; the cursor advances by `duration` after segment 0 and by
`max(0, duration - transition)` after each later one; and the boundary between
segments `i` and `i+1` overlaps by exactly `transition` whenever
`transition > 0` and either `i = 0` or segment `i` is at least `transition`
long (in general a later boundary overlaps by `min(duration_i, transition)`). -/
theorem c1_amended_overlap (c : Ctx) (segs : List ResolvedSegment) :
    start c segs 0 = 0 ∧
    (∀ i, 0 < i → start c segs i = cursor c segs i - transition c) ∧
    (∀ i, cursor c segs (i+1) = cursor c segs i +
      (if i = 0 then segment_duration c segs 0
       else max 0 (segment_duration c segs i - transition c))) ∧
    (∀ i, i + 1 < segs.length → 0 < transition c →
      (i = 0 ∨ transition c ≤ segment_duration c segs i) →
      start c segs i + segment_duration c segs i - start c segs (i+1) = transition c) := by
  refine ⟨rfl, ?_, ?_, ?_⟩
  · intro i hi
    rcases i with _ | j
    · exact absurd hi (lt_irrefl 0)
    · exact start_succ c segs j
  · intro i
    rw [cursor_succ]
    rcases i with _ | j
    · simp
    · simp
  · intro i _ _ h
    exact overlap_eq_of c segs i h

/-- C1, witness: the amended overlap fact at a concrete input
(`transition = 1/2`, two still segments of length 2). -/
theorem c1_witness :
    start cC1w segsC1w 1 + segment_duration cC1w segsC1w 1 - start cC1w segsC1w 2
      = transition cC1w :=
  (c1_amended_overlap cC1w segsC1w).2.2.2 1
    (by norm_num [segsC1w])
    (by norm_num [transition, cC1w])
    (Or.inr (by norm_num [transition, segment_duration, default_still, voice_duration,
      voiceSrc, segment_voice_offset, voice_offset, is_group_first, segAt, cC1w, segsC1w,
      INTRA_GROUP_CUE_DELAY_SEC]))

/-! Claim C2. -/

/-- C2, counterexample: with `voice_start_offset = 5` and
`default_still = 2`, a group-first segment with no voice gets duration
`max(2, 0 + 5) = 5`, not `default_still`: the per-segment offset is added even
when no voice is present. -/
theorem c2_counterexample :
    (voiceSrc cC2 segsC2 0).isSome = false ∧
    default_still cC2 = 2 ∧
    segment_duration cC2 segsC2 0 = 5 := by
  refine ⟨rfl, by norm_num [default_still, cC2], ?_⟩
  norm_num [segment_duration, default_still, voice_duration, voiceSrc, segment_voice_offset,
    voice_offset, is_group_first, segAt, cC2, segsC2, INTRA_GROUP_CUE_DELAY_SEC]

/-- C2 (amended): every segment's duration is
`max(default_still, voice_duration + offset)`; for a segment with no voice the
duration is `max(default_still, offset)`, which equals `default_still`
exactly in the cases where the segment's voice offset does not exceed
`default_still`. -/
theorem c2_amended_duration (c : Ctx) (segs : List ResolvedSegment) (i : Nat) :
    segment_duration c segs i
      = max (default_still c) (voice_duration c segs i + segment_voice_offset c segs i) ∧
    ((voiceSrc c segs i).isSome = false →
      segment_duration c segs i = max (default_still c) (segment_voice_offset c segs i)) ∧
    ((voiceSrc c segs i).isSome = false →
      segment_voice_offset c segs i ≤ default_still c →
      segment_duration c segs i = default_still c) := by
  have hnov : (voiceSrc c segs i).isSome = false → voice_duration c segs i = 0 := by
    intro h
    unfold voice_duration
    rcases hv : voiceSrc c segs i with _ | q
    · rfl
    · rw [hv] at h; cases h
  refine ⟨rfl, ?_, ?_⟩
  · intro h
    unfold segment_duration
    rw [hnov h, zero_add]
  · intro h hle
    unfold segment_duration
    rw [hnov h, zero_add]
    exact max_eq_left hle

/-- C2, witness: the amended duration rule at a concrete no-voice segment with
offset `0 ≤ default_still = 2`. -/
theorem c2_witness : segment_duration cC2w segsC2w 0 = default_still cC2w :=
  (c2_amended_duration cC2w segsC2w 0).2.2 rfl
    (by norm_num [segment_voice_offset, voice_offset, default_still, is_group_first,
      segAt, cC2w, segsC2w])

/-! Claim C7. -/

/-- C7: for every segment, the subtitle starts at `start + offset` when voice
is present and at `start` otherwise; the raw duration is
`min(voice_duration, max(0, duration - offset))` with voice and the full
segment duration without; the planned duration is
`max(0.05, raw - 0.05)` (the code's extra `min` with `segment_duration` never
binds because the duration floor `0.1` dominates); and a segment with an
empty comment plans no subtitle. -/
theorem c7_subtitle_window (c : Ctx) (segs : List ResolvedSegment) (i : Nat) :
    (subtitle_start c segs i =
      if (voiceSrc c segs i).isSome then start c segs i + segment_voice_offset c segs i
      else start c segs i) ∧
    (raw_subtitle_duration c segs i =
      if (voiceSrc c segs i).isSome then
        min (voice_duration c segs i)
          (max 0 (segment_duration c segs i - segment_voice_offset c segs i))
      else segment_duration c segs i) ∧
    subtitle_duration c segs i = max (1/20) (raw_subtitle_duration c segs i - 1/20) ∧
    ((segAt segs i).comment = "" → has_subtitle segs i = false) := by
  refine ⟨rfl, ?_, ?_, ?_⟩
  · unfold raw_subtitle_duration voice_end available
    split
    · rfl
    · rfl
  · unfold subtitle_duration
    refine min_eq_right (max_le ?_ ?_)
    · linarith [duration_ge_tenth c segs i]
    · linarith [raw_subtitle_le_duration c segs i]
  · intro h
    simp [has_subtitle, h]

/-- C7, witness: the subtitle window rule at a concrete voiced segment, plus
the no-subtitle fact for its silent successor. -/
theorem c7_witness :
    subtitle_duration cC7 segsC7 0
        = max (1/20) (raw_subtitle_duration cC7 segsC7 0 - 1/20) ∧
    has_subtitle segsC7 1 = false :=
  ⟨(c7_subtitle_window cC7 segsC7 0).2.2.1, (c7_subtitle_window cC7 segsC7 1).2.2.2 rfl⟩

/-! Claim C4. -/

/-- C4, counterexample: at a group boundary with `transition = 5` and a first
segment of length 2, the slide-out window of segment 0 is `[0, 2]` while the
slide-in window of segment 1 is `[-3, 2]`: the two windows do not span the
same interval. -/
theorem c4_counterexample :
    0 < transition cC4 ∧
    (segAt segsC4 1).group_id ≠ (segAt segsC4 0).group_id ∧
    slide_out_window cC4 segsC4 0 = (0, 2) ∧
    slide_in_window cC4 segsC4 1 = (-3, 2) ∧
    slide_out_window cC4 segsC4 0 ≠ slide_in_window cC4 segsC4 1 := by
  have h1 : slide_out_window cC4 segsC4 0 = (0, 2) := by
    norm_num [slide_out_window, start, cursor, transition, segment_duration, default_still,
      voice_duration, voiceSrc, segment_voice_offset, voice_offset, is_group_first, segAt,
      cC4, segsC4, INTRA_GROUP_CUE_DELAY_SEC, Prod.ext_iff]
  have h2 : slide_in_window cC4 segsC4 1 = (-3, 2) := by
    norm_num [slide_in_window, start, cursor, transition, segment_duration, default_still,
      voice_duration, voiceSrc, segment_voice_offset, voice_offset, is_group_first, segAt,
      cC4, segsC4, INTRA_GROUP_CUE_DELAY_SEC, Prod.ext_iff]
  refine ⟨by norm_num [transition, cC4], by simp [segAt, segsC4], h1, h2, ?_⟩
  rw [h1, h2]
  norm_num [Prod.ext_iff]

/-- C4 (amended): at every boundary with `transition > 0`, a same-group
boundary gives segment `i` a cross dissolve and leaves segment `i-1`
untouched; a group boundary assigns slide-out to `i-1` and slide-in to `i`,
and the two windows coincide at `[start_i, start_i + transition]` whenever
segment `i-1` is at least `transition` long. -/
theorem c4_amended_boundary (c : Ctx) (segs : List ResolvedSegment) (i : Nat)
    (hi : 0 < i) (hlen : i < segs.length) (hT : 0 < transition c) :
    ((segAt segs i).group_id = (segAt segs (i-1)).group_id →
      transition_in c segs i = TransitionKind.cross_dissolve_in ∧
      slide_out_assigned c segs (i-1) = false) ∧
    ((segAt segs i).group_id ≠ (segAt segs (i-1)).group_id →
      transition_in c segs i = TransitionKind.slide_in_right ∧
      slide_out_assigned c segs (i-1) = true ∧
      slide_in_window c segs i = (start c segs i, start c segs i + transition c) ∧
      (transition c ≤ segment_duration c segs (i-1) →
        slide_out_window c segs (i-1) = slide_in_window c segs i)) := by
  obtain ⟨j, rfl⟩ : ∃ j, i = j + 1 := ⟨i - 1, (Nat.succ_pred_eq_of_pos hi).symm⟩
  simp only [Nat.add_sub_cancel]
  constructor
  · intro hsame
    constructor
    · unfold transition_in
      rw [if_neg (by simp [hT]), if_neg (by simp [hsame])]
    · unfold slide_out_assigned
      simp [hsame]
  · intro hdiff
    refine ⟨?_, ?_, rfl, ?_⟩
    · unfold transition_in
      rw [if_neg (by simp [hT]), if_pos (by simp [hdiff])]
    · unfold slide_out_assigned
      simp [hdiff, hlen, hT]
    · intro hdur
      have hov : start c segs j + segment_duration c segs j - start c segs (j+1)
          = transition c := by
        rcases Nat.eq_zero_or_pos j with rfl | hj
        · exact overlap_eq_of c segs 0 (Or.inl rfl)
        · exact overlap_eq_of c segs j (Or.inr hdur)
      have hmax : max 0 (segment_duration c segs j - transition c)
          = segment_duration c segs j - transition c :=
        max_eq_right (by linarith)
      unfold slide_out_window slide_in_window
      rw [hmax, Prod.ext_iff]
      constructor
      · show start c segs j + (segment_duration c segs j - transition c) = start c segs (j+1)
        linarith
      · show start c segs j + segment_duration c segs j
            = start c segs (j+1) + transition c
        linarith

/-- C4, witness: the amended boundary behaviour at a concrete group boundary
with `transition = 1/2 ≤ duration = 2`. -/
theorem c4_witness :
    transition_in cC4w segsC4w 1 = TransitionKind.slide_in_right ∧
    slide_out_assigned cC4w segsC4w 0 = true ∧
    slide_in_window cC4w segsC4w 1 = (start cC4w segsC4w 1, start cC4w segsC4w 1 + transition cC4w) ∧
    slide_out_window cC4w segsC4w 0 = slide_in_window cC4w segsC4w 1 := by
  have h := (c4_amended_boundary cC4w segsC4w 1 (by norm_num) (by norm_num [segsC4w])
      (by norm_num [transition, cC4w])).2 (by simp [segAt, segsC4w])
  refine ⟨h.1, h.2.1, h.2.2.1, h.2.2.2 ?_⟩
  norm_num [transition, segment_duration, default_still, voice_duration, voiceSrc,
    segment_voice_offset, voice_offset, is_group_first, segAt, cC4w, segsC4w,
    INTRA_GROUP_CUE_DELAY_SEC]

/-! Claim C6. -/

/-- C6, counterexample: with `transition = 1.2`, `voice_start_offset = 0.8`
and a half-second voice clip, the capped subtitle of segment 0 ends at
`0.85`, past both `next_start - 0.05 = 0.75` and the next segment's start
`0.8`: the 0.05 duration floor defeats the cap. -/
theorem c6_counterexample :
    has_subtitle segsC6 0 = true ∧
    0 + 1 < segsC6.length ∧
    capped_subtitle_end cC6 segsC6 0 = 17/20 ∧
    start cC6 segsC6 1 = 4/5 ∧
    ¬ capped_subtitle_end cC6 segsC6 0 ≤ start cC6 segsC6 1 - 1/20 ∧
    ¬ capped_subtitle_end cC6 segsC6 0 ≤ start cC6 segsC6 1 := by
  have hst : start cC6 segsC6 1 = 4/5 := by
    norm_num [start, cursor, transition, segment_duration, default_still, voice_duration,
      voiceSrc, segment_voice_offset, voice_offset, is_group_first, segAt, cC6, segsC6,
      INTRA_GROUP_CUE_DELAY_SEC]
  have hce : capped_subtitle_end cC6 segsC6 0 = 17/20 := by
    norm_num [capped_subtitle_end, subtitle_end, subtitle_start, subtitle_duration,
      raw_subtitle_duration, voice_end, available, start, cursor, transition,
      segment_duration, default_still, voice_duration, voiceSrc, segment_voice_offset,
      voice_offset, is_group_first, segAt, cC6, segsC6, INTRA_GROUP_CUE_DELAY_SEC]
  refine ⟨by simp [has_subtitle, segAt, segsC6], by norm_num [segsC6], hce, hst, ?_, ?_⟩
  · rw [hce, hst]; norm_num
  · rw [hce, hst]; norm_num

/-- C6 (amended): after the post-pass, a non-last subtitle ends no later than
`max(next_start - 0.05, subtitle_start + 0.05)`; in particular the claimed cap
`end ≤ next_start - 0.05` holds whenever `subtitle_start + 0.1 ≤ next_start`
(otherwise the 0.05 duration floor can push the end past the cap). -/
theorem c6_amended_subtitle_cap (c : Ctx) (segs : List ResolvedSegment) (i : Nat)
    (h : i + 1 < segs.length) :
    capped_subtitle_end c segs i
      ≤ max (start c segs (i+1) - 1/20) (subtitle_start c segs i + 1/20) ∧
    (subtitle_start c segs i + 1/10 ≤ start c segs (i+1) →
      capped_subtitle_end c segs i ≤ start c segs (i+1) - 1/20) := by
  unfold capped_subtitle_end
  rw [if_pos h]
  rcases le_total (1/20 : ℚ)
      (min (subtitle_end c segs i) (start c segs (i+1) - 1/20) - subtitle_start c segs i)
    with h1 | h1
  · rw [max_eq_right h1]
    have hm : min (subtitle_end c segs i) (start c segs (i+1) - 1/20)
        ≤ start c segs (i+1) - 1/20 := min_le_right _ _
    constructor
    · exact le_max_of_le_left (by linarith)
    · intro _
      linarith
  · rw [max_eq_left h1]
    constructor
    · exact le_max_of_le_right (le_refl _)
    · intro h2
      linarith

/-- C6, witness: the cap at a concrete input where the subtitle starts well
before the next segment. -/
theorem c6_witness :
    capped_subtitle_end cC6w segsC6w 0 ≤ start cC6w segsC6w 1 - 1/20 :=
  (c6_amended_subtitle_cap cC6w segsC6w 0 (by norm_num [segsC6w])).2
    (by norm_num [subtitle_start, start, cursor, transition, segment_duration,
      default_still, voice_duration, voiceSrc, segment_voice_offset, voice_offset,
      is_group_first, segAt, cC6w, segsC6w, INTRA_GROUP_CUE_DELAY_SEC])

/-! Claim C5. -/

/-- C5, counterexample: with one minimal segment the total duration is its
floor `0.1`, while at `fps = 1` the cover layer planned at `start = 0` lasts
`max(1/1, 0.04) = 1` second: the plan invariant
`total_duration ≥ start + duration` fails for the cover layer. -/
theorem c5_counterexample :
    total_duration cC5 segsC5 = 1/10 ∧
    cover_frame_duration 1 = 1 ∧
    ¬ (0 : ℚ) + cover_frame_duration 1 ≤ total_duration cC5 segsC5 := by
  have ht : total_duration cC5 segsC5 = 1/10 := by
    norm_num [total_duration, max_visual_voice_end, subtitle_max_end, vveStep,
      List.range_succ, has_subtitle, voice_end, available, start, cursor, transition,
      segment_duration, default_still, voice_duration, voiceSrc, segment_voice_offset,
      voice_offset, is_group_first, segAt, cC5, segsC5, INTRA_GROUP_CUE_DELAY_SEC]
  have hc : cover_frame_duration 1 = 1 := by
    norm_num [cover_frame_duration]
  refine ⟨ht, hc, ?_⟩
  rw [ht, hc]
  norm_num

/-- C5 (amended): `total_duration` is exactly
`max(max_visual_voice_end, subtitle_max_end, 0.1)` — the maximum over all
segments of visual end, (post-cap) subtitle end and voice end, floored at
0.1 — and it dominates `start + duration` of every visual segment, voice clip,
subtitle cue and the background-music clip; for the optional cover layer the
invariant holds whenever `fps ≥ 10` (its frame then lasts at most 0.1s), but
not in general. -/
theorem c5_amended_total_duration (c : Ctx) (segs : List ResolvedSegment) :
    total_duration c segs
      = max (max (max_visual_voice_end c segs) (subtitle_max_end c segs)) (1/10) ∧
    (1/10 : ℚ) ≤ total_duration c segs ∧
    (∀ i, i < segs.length →
      start c segs i + segment_duration c segs i ≤ total_duration c segs) ∧
    (∀ i, i < segs.length → (voiceSrc c segs i).isSome = true →
      0 < voice_end c segs i →
      start c segs i + segment_voice_offset c segs i + voice_end c segs i
        ≤ total_duration c segs) ∧
    (∀ i, i < segs.length → has_subtitle segs i = true →
      capped_subtitle_end c segs i ≤ total_duration c segs) ∧
    (∀ bgm_dur : ℚ, (0 : ℚ) + min (total_duration c segs) bgm_dur ≤ total_duration c segs) ∧
    (∀ fps : ℤ, 10 ≤ fps → (0 : ℚ) + cover_frame_duration fps ≤ total_duration c segs) := by
  have hmvve : max_visual_voice_end c segs ≤ total_duration c segs :=
    le_trans (le_max_left _ _) (le_max_left _ _)
  have hsub : subtitle_max_end c segs ≤ total_duration c segs :=
    le_trans (le_max_right _ _) (le_max_left _ _)
  have hfloor : (1/10 : ℚ) ≤ total_duration c segs := le_max_right _ _
  refine ⟨rfl, hfloor, ?_, ?_, ?_, ?_, ?_⟩
  · intro i hi
    exact le_trans (max_visual_voice_end_bounds c segs hi).1 hmvve
  · intro i hi hs hv
    exact le_trans ((max_visual_voice_end_bounds c segs hi).2 hs hv) hmvve
  · intro i hi hsb
    refine le_trans ?_ hsub
    refine mem_le_max_getD ?_ 0
    exact List.mem_map_of_mem _ (List.mem_filter.mpr ⟨List.mem_range.mpr hi, hsb⟩)
  · intro bgm_dur
    rw [zero_add]
    exact min_le_left _ _
  · intro fps hfps
    rw [zero_add]
    refine le_trans ?_ hfloor
    unfold cover_frame_duration
    have h1 : (1 : ℤ) ⊔ fps = fps := max_eq_right (by linarith)
    rw [h1]
    refine max_le ?_ (by norm_num)
    rw [div_le_div_iff₀ (by positivity) (by norm_num)]
    linarith [(show (10 : ℚ) ≤ (fps : ℚ) by exact_mod_cast hfps)]

/-- C5, witness: the amended bounds at a concrete voiced input. -/
theorem c5_witness :
    start cC5w segsC5w 0 + segment_duration cC5w segsC5w 0 ≤ total_duration cC5w segsC5w ∧
    capped_subtitle_end cC5w segsC5w 0 ≤ total_duration cC5w segsC5w ∧
    (0 : ℚ) + cover_frame_duration 30 ≤ total_duration cC5w segsC5w := by
  have h := c5_amended_total_duration cC5w segsC5w
  exact ⟨h.2.2.1 0 (by norm_num [segsC5w]),
    h.2.2.2.2.1 0 (by norm_num [segsC5w]) (by simp [has_subtitle, segAt, segsC5w]),
    h.2.2.2.2.2.2 30 (by norm_num)⟩

/-! Injectivity of the decimal rendering used by the synthetic group ids
(`f"group-{index+1}"` becomes `"group-" ++ toString (index+1)`). -/

lemma toDigitsCore_eq_append (n : Nat) : ∀ (fuel : Nat) (ds : List Char), n < fuel →
    Nat.toDigitsCore 10 fuel n ds = Nat.toDigitsCore 10 (n+1) n [] ++ ds := by
  induction n using Nat.strong_induction_on with
  | _ n ih =>
    intro fuel ds hf
    match fuel, hf with
    | fuel+1, hf =>
      rw [Nat.toDigitsCore]
      by_cases h0 : n / 10 = 0
      · rw [if_pos h0]
        conv_rhs => rw [Nat.toDigitsCore, if_pos h0]
        rfl
      · rw [if_neg h0]
        have hlt : n / 10 < n :=
          Nat.div_lt_self (Nat.pos_of_ne_zero (fun h => h0 (by simp [h]))) (by norm_num)
        have hfuel : n / 10 < fuel := lt_of_lt_of_le hlt (Nat.lt_succ_iff.mp hf)
        rw [ih (n / 10) hlt fuel _ hfuel]
        conv_rhs => rw [Nat.toDigitsCore, if_neg h0]
        rw [ih (n / 10) hlt n _ hlt]
        simp

lemma toDigits_of_lt {n : Nat} (h : n < 10) :
    Nat.toDigits 10 n = [Nat.digitChar n] := by
  unfold Nat.toDigits
  rw [Nat.toDigitsCore]
  simp [Nat.div_eq_of_lt h, Nat.mod_eq_of_lt h]

lemma toDigits_of_ge {n : Nat} (h : 10 ≤ n) :
    Nat.toDigits 10 n = Nat.toDigits 10 (n / 10) ++ [Nat.digitChar (n % 10)] := by
  have h0 : n / 10 ≠ 0 := by
    have : 1 ≤ n / 10 := (Nat.one_le_div_iff (by norm_num)).mpr h
    omega
  have hlt : n / 10 < n := Nat.div_lt_self (by omega) (by norm_num)
  conv_lhs => rw [Nat.toDigits, Nat.toDigitsCore, if_neg h0]
  rw [toDigitsCore_eq_append (n / 10) n _ hlt]
  rfl

lemma toDigits_ne_nil (n : Nat) : Nat.toDigits 10 n ≠ [] := by
  rcases lt_or_le n 10 with h | h
  · rw [toDigits_of_lt h]; simp
  · rw [toDigits_of_ge h]; simp

lemma digitChar_inj_lt : ∀ a < 10, ∀ b < 10,
    Nat.digitChar a = Nat.digitChar b → a = b := by decide

lemma toDigits_injective : ∀ n m : Nat, Nat.toDigits 10 n = Nat.toDigits 10 m → n = m := by
  intro n
  induction n using Nat.strong_induction_on with
  | _ n ih =>
    intro m h
    rcases lt_or_le n 10 with hn | hn <;> rcases lt_or_le m 10 with hm | hm
    · rw [toDigits_of_lt hn, toDigits_of_lt hm] at h
      exact digitChar_inj_lt n hn m hm (List.singleton_inj.mp h)
    · rw [toDigits_of_lt hn, toDigits_of_ge hm] at h
      have hlen := congrArg List.length h
      simp at hlen
      exact absurd hlen (toDigits_ne_nil (m / 10))
    · rw [toDigits_of_ge hn, toDigits_of_lt hm] at h
      have hlen := congrArg List.length h
      simp at hlen
      exact absurd hlen (toDigits_ne_nil (n / 10))
    · rw [toDigits_of_ge hn, toDigits_of_ge hm] at h
      obtain ⟨h1, h2⟩ := List.append_inj' h rfl
      have hdiv : n / 10 = m / 10 :=
        ih (n / 10) (Nat.div_lt_self (by omega) (by norm_num)) (m / 10) h1
      have hmod : n % 10 = m % 10 :=
        digitChar_inj_lt (n % 10) (Nat.mod_lt n (by norm_num)) (m % 10)
          (Nat.mod_lt m (by norm_num)) (List.singleton_inj.mp h2)
      omega

lemma nat_repr_injective {n m : Nat} (h : Nat.repr n = Nat.repr m) : n = m := by
  refine toDigits_injective n m ?_
  have := congrArg String.data h
  simpa [Nat.repr, List.asString] using this

lemma toString_nat_injective {n m : Nat} (h : (toString n : String) = toString m) : n = m :=
  nat_repr_injective h

lemma synthetic_id_injective {i j : Nat} (h : i ≠ j) :
    "group-" ++ toString (i+1) ≠ "group-" ++ toString (j+1) := by
  intro hEq
  have hdata := congrArg String.data hEq
  rw [String.data_append, String.data_append] at hdata
  have hstr : (toString (i+1) : String) = toString (j+1) :=
    String.ext (List.append_cancel_left hdata)
  have := toString_nat_injective hstr
  omega

/-! Claims C8 and C9. -/

/-- C8: a raw narration whose stripped comment is empty or whose cleaned voice
reference is empty contributes nothing to the parsed narration list (and the
parse never fails on it); a node left with no narrations expands to exactly
one silent segment (empty comment, no voice); a node with `N` narrations
expands to exactly `N` segments, all sharing the node's image. -/
theorem c8_narration_expansion :
    (∀ (pre post : List RawNarration) (r : RawNarration),
      (r.comment.trim = "" ∨ cleanVoiceUrl r.voice_url = none) →
      parseNarrations (pre ++ r :: post) = parseNarrations (pre ++ post)) ∧
    (∀ (gid kind : String) (n : NodeSpec), n.narrations = [] →
      expandNode gid kind n = [⟨gid, kind, n.image_url, "", none⟩]) ∧
    (∀ (gid kind : String) (n : NodeSpec), n.narrations ≠ [] →
      (expandNode gid kind n).length = n.narrations.length ∧
      ∀ s ∈ expandNode gid kind n, s.image_url = n.image_url) := by
  refine ⟨?_, ?_, ?_⟩
  · intro pre post r hr
    unfold parseNarrations
    rw [List.filterMap_append, List.filterMap_append, List.filterMap_cons]
    rcases hcv : cleanVoiceUrl r.voice_url with _ | v
    · simp
    · rcases hr with hr | hr
      · simp [hr]
      · rw [hcv] at hr; cases hr
  · intro gid kind n h
    unfold expandNode
    rw [h]
  · intro gid kind n h
    unfold expandNode
    rcases hn : n.narrations with _ | ⟨a, t⟩
    · exact absurd hn h
    · constructor
      · simp
      · intro s hs
        rw [List.mem_map] at hs
        obtain ⟨nar, _, rfl⟩ := hs
        rfl

/-- C8, witness: the expansion facts at concrete inputs — a dropped blank
narration, a silent node, and a two-narration node. -/
theorem c8_witness :
    parseNarrations [rawKeepA, rawDropC8, rawKeepB] = parseNarrations [rawKeepA, rawKeepB] ∧
    expandNode "g" "original" nodeSilentC8 = [⟨"g", "original", "img", "", none⟩] ∧
    (expandNode "g" "original" nodeTwoC8).length = 2 := by
  refine ⟨?_, ?_, ?_⟩
  · exact c8_narration_expansion.1 [rawKeepA] [rawKeepB] rawDropC8 (Or.inr rfl)
  · exact c8_narration_expansion.2.1 "g" "original" nodeSilentC8 rfl
  · rw [(c8_narration_expansion.2.2 "g" "original" nodeTwoC8 (by simp [nodeTwoC8])).1]
    rfl

/-- C9: a missing or empty `groups` array fails parsing with the
non-empty-array error, and a job whose flattening yields no nodes aborts with
the empty-sequence error before any asset fetch is recorded. -/
theorem c9_empty_sequence :
    (∀ raw : Option (List RawGroup), (raw = none ∨ raw = some []) →
      parseGroupsField raw
        = Except.error "Invalid job json: groups must be a non-empty array.") ∧
    (∀ groups : List GroupSpec, build_sequence_nodes groups = [] →
      runJob groups = ⟨[], Except.error "No nodes found in job config."⟩) := by
  constructor
  · intro raw hr
    rcases hr with rfl | rfl
    · rfl
    · rfl
  · intro groups h
    unfold runJob
    rw [h]
    rfl

/-- C9, witness: the empty-sequence failures at the concrete empty inputs. -/
theorem c9_witness :
    parseGroupsField none
      = Except.error "Invalid job json: groups must be a non-empty array." ∧
    runJob [] = ⟨[], Except.error "No nodes found in job config."⟩ :=
  ⟨c9_empty_sequence.1 none (Or.inl rfl), c9_empty_sequence.2 [] rfl⟩

/-! Claim C10. -/

lemma parseGroups_getD (raws : List RawGroup) (p : Nat) (hp : p < raws.length) :
    (parseGroups raws).getD p default = parse_group (raws.getD p default) p := by
  have hlen : p < (parseGroups raws).length := by simp [parseGroups, hp]
  rw [List.getD_eq_getElem _ _ hlen, List.getD_eq_getElem _ _ hp]
  simp [parseGroups]

/-- C10: a missing or empty `group_id` becomes the synthetic
`"group-{index+1}"`; synthetic ids at distinct positions are distinct; hence
two adjacent groups both lacking a `group_id` always parse to distinct ids;
and in the renderer any adjacent pair of segments with distinct `group_id`s is
treated as a group boundary: the later segment is group-first (so it uses
`voice_start_offset`), it gets `slide_in_right`, and the earlier one is
assigned `slide_out_left` when `transition > 0`. -/
theorem c10_synthetic_group_ids :
    (∀ (raw : Option String) (i : Nat), (raw = none ∨ raw = some "") →
      parseGroupId raw i = "group-" ++ toString (i+1)) ∧
    (∀ i j : Nat, i ≠ j → parseGroupId none i ≠ parseGroupId none j) ∧
    (∀ (raws : List RawGroup) (p : Nat), p + 1 < raws.length →
      ((raws.getD p default).group_id = none ∨ (raws.getD p default).group_id = some "") →
      ((raws.getD (p+1) default).group_id = none ∨
        (raws.getD (p+1) default).group_id = some "") →
      ((parseGroups raws).getD p default).group_id
        ≠ ((parseGroups raws).getD (p+1) default).group_id) ∧
    (∀ (c : Ctx) (segs : List ResolvedSegment) (i : Nat), 0 < i → i < segs.length →
      (segAt segs i).group_id ≠ (segAt segs (i-1)).group_id →
      is_group_first segs i = true ∧
      segment_voice_offset c segs i = voice_offset c ∧
      (0 < transition c → transition_in c segs i = TransitionKind.slide_in_right ∧
        slide_out_assigned c segs (i-1) = true)) := by
  have hsyn : ∀ (raw : Option String) (i : Nat), (raw = none ∨ raw = some "") →
      parseGroupId raw i = "group-" ++ toString (i+1) := by
    intro raw i hr
    rcases hr with rfl | rfl
    · rfl
    · rfl
  refine ⟨hsyn, ?_, ?_, ?_⟩
  · intro i j hij
    exact synthetic_id_injective hij
  · intro raws p hp h1 h2
    rw [parseGroups_getD raws p (by omega), parseGroups_getD raws (p+1) hp]
    show parseGroupId (raws.getD p default).group_id p
        ≠ parseGroupId (raws.getD (p+1) default).group_id (p+1)
    rw [hsyn _ p h1, hsyn _ (p+1) h2]
    exact synthetic_id_injective (by omega)
  · intro c segs i hi hlen hdiff
    obtain ⟨j, rfl⟩ : ∃ j, i = j + 1 := ⟨i - 1, (Nat.succ_pred_eq_of_pos hi).symm⟩
    simp only [Nat.add_sub_cancel] at hdiff ⊢
    have hgf : is_group_first segs (j+1) = true := by
      unfold is_group_first
      simp [hdiff]
    refine ⟨hgf, ?_, ?_⟩
    · unfold segment_voice_offset
      rw [if_pos hgf]
    · intro hT
      constructor
      · unfold transition_in
        rw [if_neg (by simp [hT]), if_pos (by simp [hdiff])]
      · unfold slide_out_assigned
        simp [hdiff, hlen, hT]

/-- C10, witness: two adjacent raw groups without ids parse to `"group-1"`
and `"group-2"`, and a concrete boundary between distinct ids is treated as a
group boundary. -/
theorem c10_witness :
    ((parseGroups rawGroupsC10).getD 0 default).group_id
      ≠ ((parseGroups rawGroupsC10).getD 1 default).group_id ∧
    is_group_first segsC10 1 = true ∧
    segment_voice_offset cC10 segsC10 1 = voice_offset cC10 := by
  have h4 := c10_synthetic_group_ids.2.2.2 cC10 segsC10 1 (by norm_num)
    (by norm_num [segsC10]) (by simp [segAt, segsC10])
  exact ⟨c10_synthetic_group_ids.2.2.1 rawGroupsC10 0 (by norm_num [rawGroupsC10])
      (Or.inl rfl) (Or.inr rfl),
    h4.1, h4.2.1⟩

/-! Structure of the segment list produced from the parsed groups: every group
contributes a non-empty contiguous block of segments carrying its `group_id`.
These facts relate the renderer's adjacency test `is_group_first` to the
group occurrence each segment was produced for. -/

lemma expandAll_cons (x : String × String × NodeSpec) (rest : List (String × String × NodeSpec)) :
    expandAll (x :: rest) = expandNode x.1 x.2.1 x.2.2 ++ expandAll rest := by
  simp [expandAll]

lemma expandAll_append (a b : List (String × String × NodeSpec)) :
    expandAll (a ++ b) = expandAll a ++ expandAll b := by
  simp [expandAll]

lemma expandNode_ne_nil (gid kind : String) (n : NodeSpec) : expandNode gid kind n ≠ [] := by
  unfold expandNode
  rcases h : n.narrations with _ | ⟨a, t⟩ <;> simp

lemma mem_expandNode_group_id {gid kind : String} {n : NodeSpec} {s : ResolvedSegment}
    (h : s ∈ expandNode gid kind n) : s.group_id = gid := by
  unfold expandNode at h
  rcases hn : n.narrations with _ | ⟨a, t⟩ <;> rw [hn] at h
  · simp at h
    rw [h]
  · rw [List.mem_map] at h
    obtain ⟨x, _, rfl⟩ := h
    rfl

lemma mem_expandAll {seq : List (String × String × NodeSpec)} {s : ResolvedSegment}
    (h : s ∈ expandAll seq) : ∃ x ∈ seq, s ∈ expandNode x.1 x.2.1 x.2.2 := by
  unfold expandAll at h
  rw [List.mem_flatten] at h
  obtain ⟨l, hl, hs⟩ := h
  rw [List.mem_map] at hl
  obtain ⟨x, hx, rfl⟩ := hl
  exact ⟨x, hx, hs⟩

lemma groupSegs_ne_nil (g : GroupSpec) : groupSegs g ≠ [] := by
  unfold groupSegs nodesOfGroup
  rw [expandAll_cons]
  simp [expandNode_ne_nil]

lemma mem_groupSegs_group_id {g : GroupSpec} {s : ResolvedSegment}
    (h : s ∈ groupSegs g) : s.group_id = g.group_id := by
  obtain ⟨x, hx, hs⟩ := mem_expandAll h
  have hgid : x.1 = g.group_id := by
    unfold nodesOfGroup at hx
    rcases List.mem_cons.mp hx with rfl | hx
    · rfl
    · rw [List.mem_map] at hx
      obtain ⟨e, _, rfl⟩ := hx
      rfl
  rw [mem_expandNode_group_id hs, hgid]

lemma build_sequence_nodes_cons (g : GroupSpec) (gs : List GroupSpec) :
    build_sequence_nodes (g :: gs) = nodesOfGroup g ++ build_sequence_nodes gs := by
  simp [build_sequence_nodes]

lemma buildSegments_cons (g : GroupSpec) (gs : List GroupSpec) :
    buildSegments (g :: gs) = groupSegs g ++ buildSegments gs := by
  unfold buildSegments groupSegs
  rw [build_sequence_nodes_cons, expandAll_append]

lemma taggedSegs_map_snd (gs : List GroupSpec) : ∀ k : Nat,
    (taggedSegs gs k).map Prod.snd = buildSegments gs := by
  induction gs with
  | nil => intro k; rfl
  | cons g t ih =>
    intro k
    rw [taggedSegs, List.map_append, ih (k+1), buildSegments_cons, List.map_map]
    simp [Function.comp]

lemma taggedSegs_length (gs : List GroupSpec) (k : Nat) :
    (taggedSegs gs k).length = (buildSegments gs).length := by
  rw [← taggedSegs_map_snd gs k, List.length_map]

lemma mem_taggedSegs : ∀ (gs : List GroupSpec) (k : Nat) (p : Nat × ResolvedSegment),
    p ∈ taggedSegs gs k →
    k ≤ p.1 ∧ p.1 - k < gs.length ∧
    p.2.group_id = (gs.getD (p.1 - k) default).group_id := by
  intro gs
  induction gs with
  | nil => intro k p h; cases h
  | cons g t ih =>
    intro k p h
    rw [taggedSegs, List.mem_append] at h
    rcases h with h | h
    · rw [List.mem_map] at h
      obtain ⟨s, hs, rfl⟩ := h
      exact ⟨le_refl k, by simp, by simpa using mem_groupSegs_group_id hs⟩
    · obtain ⟨h1, h2, h3⟩ := ih (k+1) p h
      refine ⟨by omega, by simp; omega, ?_⟩
      have hsub : p.1 - k = (p.1 - (k+1)) + 1 := by omega
      rw [hsub, h3]
      rfl

lemma taggedSegs_fst_head? (g : GroupSpec) (gs : List GroupSpec) (k : Nat) :
    ((taggedSegs (g :: gs) k).map Prod.fst).head? = some k := by
  rw [taggedSegs, List.map_append]
  obtain ⟨a, as, ha⟩ := List.exists_cons_of_ne_nil (groupSegs_ne_nil g)
  rw [ha]
  rfl

lemma taggedSegs_fst_chain (gs : List GroupSpec) : ∀ k : Nat,
    List.Chain' (fun a b => b = a ∨ b = a + 1) ((taggedSegs gs k).map Prod.fst) := by
  induction gs with
  | nil => intro k; simp [taggedSegs]
  | cons g t ih =>
    intro k
    rw [taggedSegs, List.map_append, List.chain'_append]
    refine ⟨?_, ih (k+1), ?_⟩
    · rw [List.map_map]
      have hconst : (Prod.fst ∘ fun s : ResolvedSegment => (k, s)) = fun _ => k := rfl
      rw [hconst, List.map_const']
      exact List.chain'_replicate_of_rel _ (Or.inl rfl)
    · intro x hx y hy
      have hxk : x = k := by
        rw [List.map_map] at hx
        have hconst : (Prod.fst ∘ fun s : ResolvedSegment => (k, s)) = fun _ => k := rfl
        rw [hconst, List.map_const'] at hx
        have hmem : x ∈ List.replicate (groupSegs g).length k :=
          List.mem_of_mem_getLast? hx
        exact List.eq_of_mem_replicate hmem
      cases t with
      | nil => simp [taggedSegs] at hy
      | cons g2 t2 =>
        have hh := taggedSegs_fst_head? g2 t2 (k+1)
        rw [hh] at hy
        have hyk : k + 1 = y := by simpa using hy
        rw [hxk, ← hyk]
        exact Or.inr rfl

lemma taggedSegs_fst_pairwise (gs : List GroupSpec) (k : Nat) :
    List.Pairwise (· ≤ ·) ((taggedSegs gs k).map Prod.fst) := by
  have h2 : List.Chain' (fun a b : Nat => a ≤ b) ((taggedSegs gs k).map Prod.fst) :=
    List.Chain'.imp
      (fun a b hab => by rcases hab with h | h <;> omega)
      (taggedSegs_fst_chain gs k)
  exact List.chain'_iff_pairwise.mp h2

lemma tagAt_eq_get {groups : List GroupSpec} {i : Nat}
    (h : i < (taggedSegs groups 0).length) :
    tagAt groups i = (taggedSegs groups 0)[i].1 := by
  unfold tagAt
  rw [List.getD_eq_getElem _ _ h]

lemma tagAt_lt_length {groups : List GroupSpec} {i : Nat}
    (h : i < (taggedSegs groups 0).length) : tagAt groups i < groups.length := by
  have hmem : (taggedSegs groups 0)[i] ∈ taggedSegs groups 0 := List.getElem_mem h
  have hfacts := mem_taggedSegs groups 0 _ hmem
  rw [tagAt_eq_get h]
  omega

lemma segAt_buildSegments_group_id (groups : List GroupSpec) {i : Nat}
    (h : i < (taggedSegs groups 0).length) :
    (segAt (buildSegments groups) i).group_id
      = (groups.getD (tagAt groups i) default).group_id := by
  have hmem : (taggedSegs groups 0)[i] ∈ taggedSegs groups 0 := List.getElem_mem h
  have hfacts := mem_taggedSegs groups 0 _ hmem
  have hb : segAt (buildSegments groups) i = (taggedSegs groups 0)[i].2 := by
    unfold segAt
    rw [← taggedSegs_map_snd groups 0,
      List.getD_eq_getElem _ _ (by simpa using h), List.getElem_map]
  rw [hb, tagAt_eq_get h]
  simpa using hfacts.2.2

lemma tagAt_consec {groups : List GroupSpec} {i : Nat}
    (h1 : i + 1 < (taggedSegs groups 0).length) :
    tagAt groups (i+1) = tagAt groups i ∨ tagAt groups (i+1) = tagAt groups i + 1 := by
  have hc := (List.chain'_iff_get.mp (taggedSegs_fst_chain groups 0)) i
    (by rw [List.length_map]; omega)
  simp only [List.get_eq_getElem, List.getElem_map] at hc
  rw [tagAt_eq_get h1, tagAt_eq_get (by omega)]
  exact hc

lemma tagAt_mono {groups : List GroupSpec} {j i : Nat} (hji : j < i)
    (hi : i < (taggedSegs groups 0).length) :
    tagAt groups j ≤ tagAt groups i := by
  have hp := List.pairwise_iff_get.mp (taggedSegs_fst_pairwise groups 0)
    ⟨j, by simpa using lt_trans hji hi⟩ ⟨i, by simpa using hi⟩ hji
  simp only [List.get_eq_getElem, List.getElem_map] at hp
  rw [tagAt_eq_get (lt_trans hji hi), tagAt_eq_get hi]
  exact hp

lemma first_produced_iff {groups : List GroupSpec} {j : Nat}
    (hi : j + 1 < (taggedSegs groups 0).length) :
    first_produced_for_group groups (j+1) ↔ tagAt groups j ≠ tagAt groups (j+1) := by
  constructor
  · intro hf heq
    exact hf j (by omega) heq
  · intro hne j2 hj2
    rcases tagAt_consec hi with he | hsucc
    · exact absurd he.symm hne
    · have hle : tagAt groups j2 ≤ tagAt groups j := by
        rcases Nat.lt_succ_iff_lt_or_eq.mp hj2 with h | rfl
        · exact tagAt_mono h (by omega)
        · exact le_refl _
      omega

/-! Claim C3. -/

/-- C3, counterexample: two adjacent groups that both declare `group_id "X"`.
The second group's first segment is the first one produced for its group, yet
`is_group_first` is false (the adjacent ids coincide) and the renderer uses
the 0.8s intra-group cue delay instead of `voice_start_offset = 0`. -/
theorem c3_counterexample :
    first_produced_for_group groupsC3x 1 ∧
    is_group_first (buildSegments groupsC3x) 1 = false ∧
    segment_voice_offset cC3x (buildSegments groupsC3x) 1 = INTRA_GROUP_CUE_DELAY_SEC ∧
    voice_offset cC3x = 0 ∧
    INTRA_GROUP_CUE_DELAY_SEC = 4/5 := by
  have hfp : first_produced_for_group groupsC3x 1 := by
    intro j hj
    interval_cases j
    simp [tagAt, taggedSegs, groupsC3x, groupSegs, expandAll, nodesOfGroup, expandNode]
  have hgf : is_group_first (buildSegments groupsC3x) 1 = false := by
    simp [is_group_first, segAt, buildSegments, build_sequence_nodes, expandAll,
      nodesOfGroup, expandNode, groupsC3x]
  refine ⟨hfp, hgf, ?_, ?_, rfl⟩
  · unfold segment_voice_offset
    rw [hgf]
    simp
  · norm_num [voice_offset, cC3x]

/-- C3 (amended): the per-segment offset is `voice_start_offset` iff
`is_group_first`, where `is_group_first` compares the segment's `group_id`
with its predecessor's; provided adjacent groups carry distinct `group_id`s,
`is_group_first` coincides with "first segment produced for its group". -/
theorem c3_amended_group_first (c : Ctx) (groups : List GroupSpec) (i : Nat)
    (hadj : adjacent_distinct groups) (hi : i < (buildSegments groups).length) :
    (segment_voice_offset c (buildSegments groups) i
      = if is_group_first (buildSegments groups) i then voice_offset c
        else INTRA_GROUP_CUE_DELAY_SEC) ∧
    (is_group_first (buildSegments groups) i = true ↔
      first_produced_for_group groups i) := by
  refine ⟨rfl, ?_⟩
  have hti : i < (taggedSegs groups 0).length := by
    rw [taggedSegs_length groups 0]
    exact hi
  rcases Nat.eq_zero_or_pos i with rfl | h0
  · constructor
    · intro _ j hj
      omega
    · intro _
      simp [is_group_first]
  · obtain ⟨j, rfl⟩ : ∃ j, i = j + 1 := ⟨i - 1, (Nat.succ_pred_eq_of_pos h0).symm⟩
    have hgid_s := segAt_buildSegments_group_id groups hti
    have hgid_p := segAt_buildSegments_group_id groups (i := j) (by omega)
    have hfirst := first_produced_iff hti
    have hig : is_group_first (buildSegments groups) (j+1) = true ↔
        (segAt (buildSegments groups) (j+1)).group_id
          ≠ (segAt (buildSegments groups) j).group_id := by
      simp [is_group_first]
    rcases tagAt_consec hti with he | hsucc
    · have hids : (segAt (buildSegments groups) (j+1)).group_id
          = (segAt (buildSegments groups) j).group_id := by
        rw [hgid_s, hgid_p, he]
      rw [hig, hfirst]
      constructor
      · intro h
        exact absurd hids h
      · intro h
        exact absurd he.symm (by simpa using h)
    · have hlt : tagAt groups (j+1) < groups.length := tagAt_lt_length hti
      have hids : (segAt (buildSegments groups) (j+1)).group_id
          ≠ (segAt (buildSegments groups) j).group_id := by
        rw [hgid_s, hgid_p, hsucc]
        exact (hadj (tagAt groups j) (by omega)).symm
      rw [hig, hfirst]
      constructor
      · intro _
        omega
      · intro _
        exact hids

/-- C3, witness: the amended statement at the second segment of two
distinct-id groups: the segment is group-first and gets `voice_start_offset`. -/
theorem c3_witness :
    is_group_first (buildSegments groupsC3w) 1 = true ↔
      first_produced_for_group groupsC3w 1 :=
  (c3_amended_group_first cC3w groupsC3w 1
    (by
      intro j hj
      have hj2 : j + 1 < 2 := by simpa [groupsC3w] using hj
      have hj0 : j = 0 := by omega
      subst hj0
      simp [groupsC3w])
    (by simp [buildSegments, build_sequence_nodes, expandAll, nodesOfGroup, expandNode,
      groupsC3w])).2

end VideoAuto
